import Mathlib

/-! Shallow embedding of `email_to_replies.py` (reply splitting, metadata
extraction, signature detection, name sanitizing).

Strings are embedded as `List Char`; Python text operations used by the
source (`str.split()`, `str.strip()`, `"\n".join`, slicing, substring
tests) are modelled by the executable helpers below.  Python's Unicode
`isalpha`/`upper`/`lower`/whitespace are modelled by the corresponding
ASCII `Char` operations, which agree with Python on ASCII input.
-/

/-- Python whitespace test for a character (ASCII fragment). -/
def pyWS (c : Char) : Bool := c.isWhitespace

/-- Accumulator worker for `pySplit`.  `acc` holds the reversed current
token. -/
def pySplitAux : List Char → List Char → List (List Char)
  | [], acc => if acc = [] then [] else [acc.reverse]
  | c :: rest, acc =>
    if pyWS c then
      if acc = [] then pySplitAux rest [] else acc.reverse :: pySplitAux rest []
    else pySplitAux rest (c :: acc)

/-- Python `str.split()` with no argument: split on runs of whitespace,
no empty tokens. -/
def pySplit (cs : List Char) : List (List Char) := pySplitAux cs []

/-- Python `str.strip()`: drop whitespace from both ends. -/
def pyStrip (cs : List Char) : List Char :=
  ((cs.dropWhile pyWS).reverse.dropWhile pyWS).reverse

/-- Python `"\n".join(lines)`. -/
def joinNL (lines : List (List Char)) : List Char :=
  List.intercalate ['\n'] lines

/-- Python `" ".join(tokens)`. -/
def joinSP (tokens : List (List Char)) : List Char :=
  List.intercalate [' '] tokens

/-- Python `s.split("\n")`: split at every newline, keeping empty pieces. -/
def pyLines : List Char → List (List Char)
  | [] => [[]]
  | c :: rest =>
    if c = '\n' then [] :: pyLines rest
    else
      match pyLines rest with
      | l :: ls => (c :: l) :: ls
      | [] => [[c]]

/-- Python slice `xs[a:b]` for `0 ≤ a`, `0 ≤ b`. -/
def pySlice (xs : List α) (a b : Nat) : List α := (xs.drop a).take (b - a)

/-- Python case-insensitive-ready substring test `needle in hay`. -/
def pyInStr (needle hay : List Char) : Bool := decide (needle <:+: hay)

/-- Python `str.upper()` (ASCII fragment). -/
def pyUpper (cs : List Char) : List Char := cs.map Char.toUpper

/-- Python `str.lower()` (ASCII fragment). -/
def pyLower (cs : List Char) : List Char := cs.map Char.toLower

/-- `TITLES` loading expression of the source (module line 30):
`set(t for t in open("_titles.txt").read().split() if t[0] != "#")`,
as a function of the resource text.  Only membership in the resulting
set is ever used, so the set is modelled by the token list. -/
def load_titles (text : List Char) : List (List Char) :=
  (pySplit text).filter (fun t => decide (t.headD ' ' ≠ '#'))

/-- Modelled from the spec: the title-list resource `_titles.txt` is not
part of the source tree; per spec sections 3 and 8 the Title Set holds
honorifics, ranks and suffixes such as "Dr", "Jr", "Captain",
"Brigadier", "General" (all-caps entries such as "CEO" are already
removed by the acronym rule before the title check).  A concrete sample
used to evaluate the functions on concrete inputs. -/
def TITLES : List (List Char) :=
  ["Dr".toList, "Jr".toList, "Sr".toList, "Captain".toList,
   "Brigadier".toList, "General".toList, "Rev".toList, "Madam".toList]

/-- Token loop of `sanitize_name` (source lines 55-67): strip
non-alphabetic characters, skip all-caps tokens (which includes tokens
emptied by the first step), skip title tokens, keep the rest. -/
def sanitize_tokens (titles : List (List Char)) : List (List Char) → List (List Char)
  | [] => []
  | tok :: rest =>
    let tok := tok.filter Char.isAlpha
    if pyUpper tok = tok then sanitize_tokens titles rest
    else if tok ∈ titles then sanitize_tokens titles rest
    else tok :: sanitize_tokens titles rest

/-- `sanitize_name` (source lines 35-70). -/
def sanitize_name (titles : List (List Char)) (name : List Char) : List Char :=
  joinSP (sanitize_tokens titles (pySplit name))

/-- A parsed header participant (`get_contact`'s return dict). -/
structure Contact where
  name_original : List Char
  name : List Char
  address : Option (List Char)
deriving DecidableEq

/-- Opening bracket class `[<\[]` of the contact regex. -/
def isOpenB (c : Char) : Bool := c = '<' ∨ c = '['

/-- Closing bracket class `[>\]]` of the contact regex. -/
def isCloseB (c : Char) : Bool := c = '>' ∨ c = ']'

/-- Largest index of `cs` whose character satisfies `p`. -/
def lastIdxWhere (p : Char → Bool) (cs : List Char) : Option Nat :=
  ((List.range cs.length).filter (fun k => p (cs.getD k ' '))).getLast?

/-- The greedy match `re.match(r"(.*)[<\[](.*)[>\]]", line)` (source
line 91): group 1 ends at the last opening bracket that still has a
closing bracket after it; group 2 then extends to the last closing
bracket.  Returns the two capture groups. -/
def bracket_groups (line : List Char) : Option (List Char × List Char) :=
  match lastIdxWhere isCloseB line with
  | none => none
  | some j =>
    match lastIdxWhere isOpenB (line.take j) with
    | none => none
    | some i => some (line.take i, pySlice line (i + 1) j)

/-- Python `address.replace("mailto:", "")`: remove every (non
overlapping, left-to-right) occurrence of `mailto:`. -/
def remove_mailto : List Char → List Char
  | 'm' :: 'a' :: 'i' :: 'l' :: 't' :: 'o' :: ':' :: rest => remove_mailto rest
  | c :: rest => c :: remove_mailto rest
  | [] => []

/-- `get_contact` (source lines 73-106). -/
def get_contact (titles : List (List Char)) (line : List Char) : Contact :=
  match bracket_groups line with
  | some (g1, g2) =>
    let name := pyStrip g1
    { name_original := name, name := sanitize_name titles name,
      address := some (remove_mailto (pyStrip g2)) }
  | none =>
    { name_original := line, name := sanitize_name titles line, address := none }

/-- The `line[:6] == "From: "` test used by both `get_replies` (line
134) and `get_metadata` (line 168). -/
def isFromLine (line : List Char) : Bool :=
  decide (line.take 6 = "From: ".toList)

/-- Breakpoint list of `get_replies` (source lines 121-139): the
implicit 0, the index of every `From: ` line, then the line count. -/
def breakpoints (lines : List (List Char)) : List Nat :=
  0 :: ((List.range lines.length).filter (fun i => isFromLine (lines.getD i []))
       ++ [lines.length])

/-- Splitting stage of `get_replies` (source lines 129-143), acting on
the lines of the message after the `Original Message` separator-removal
regex pass and the split on newlines: pair consecutive breakpoints and
slice. -/
def get_replies (lines : List (List Char)) : List (List (List Char)) :=
  ((breakpoints lines).zip (breakpoints lines).tail).map
    (fun p => pySlice lines p.1 p.2)

/-- `get_metadata`'s return dict (source lines 185-186). -/
structure Metadata where
  sender : Option Contact
  recipients : Option (List Contact)
  timestamp : Option (List Char)
  subject : Option (List Char)
  lines : Nat
deriving DecidableEq

/-- One iteration body of the `get_metadata` scan (source lines
166-178): the four-way prefix dispatch. -/
def meta_process (titles : List (List Char)) (line : List Char) (st : Metadata) :
    Metadata :=
  if isFromLine line then
    { st with sender := some (get_contact titles (line.drop 6)) }
  else if line.take 4 = "To: ".toList ∨ line.take 4 = "Cc: ".toList then
    { st with recipients := some (st.recipients.getD [] ++ [get_contact titles (line.drop 4)]) }
  else if line.take 6 = "Sent: ".toList then
    { st with timestamp := some (line.drop 6) }
  else if line.take 9 = "Subject: ".toList then
    { st with subject := some (line.drop 9) }
  else st

/-- The `get_metadata` scan loop with its post-check `if i > 9: break`
(source lines 165-183): the line is processed first, then the counter
is compared. -/
def meta_loop (titles : List (List Char)) :
    List (List Char) → Nat → Metadata → Metadata
  | [], _, st => st
  | line :: rest, i, st =>
    let st' := meta_process titles line st
    if i > 9 then st' else meta_loop titles rest (i + 1) st'

/-- `get_metadata` (source lines 146-187). -/
def get_metadata (titles : List (List Char)) (reply : List (List Char)) : Metadata :=
  meta_loop titles reply 0
    { sender := none, recipients := none, timestamp := none, subject := none,
      lines := reply.length }

/-- `get_signature`'s return dict (source lines 246-248). -/
structure SignatureMeta where
  has_signature : Bool
  signature : Option (List Char)
  reply_text : Option (List Char)
  address_in_signature : Bool
deriving DecidableEq

/-- The only exception the embedded fragment can raise: CPython's
division by zero, from `len(reply_reversed)/length_divisor` with a zero
divisor (source line 216). -/
inductive PyError where
  | zeroDivisionError
deriving DecidableEq

deriving instance DecidableEq for Except

/-- The `found_sender` comprehension (source line 230): tokens of the
sanitized line that occur case-insensitively as substrings of the
sender's sanitized name. -/
def found_sender (sender : Contact) (tokens : List (List Char)) : List (List Char) :=
  tokens.filter (fun t => pyInStr (pyLower t) (pyLower sender.name))

/-- Per-line body of the backward search of `get_signature` (source
lines 227-241): sanitize the line, split into tokens, and when 2+
tokens all occur case-insensitively inside the sender name, produce the
signature/reply-text split at original index `i - 1`. -/
def sig_check (titles : List (List Char)) (reply : List (List Char))
    (sender : Contact) (line : List Char) (i : Nat) : Option SignatureMeta :=
  let tokens := pySplit (sanitize_name titles line)
  if tokens.length > 1 ∧ found_sender sender tokens = tokens then
    let signature := pyStrip (joinNL (reply.drop (i - 1)))
    let reply_text := pyStrip (joinNL (reply.take (i - 1)))
    let ais :=
      match sender.address with
      | some a => if a = [] then false else pyInStr (pyLower a) (pyLower signature)
      | none => false
    some ⟨true, some signature, some reply_text, ais⟩
  else none

/-- The backward search loop of `get_signature` (source lines 219-244).
The Python guard `j == max_length` compares the integer `j` with the
float `len(reply)/length_divisor`; it is modelled as the exact rational
equality `j * length_divisor = len(reply)`, which coincides with the
float comparison for all list lengths below 2^53 (and exactly, for the
default divisor 2, since halving is exact in binary floating point). -/
def sig_loop (titles : List (List Char)) (reply : List (List Char))
    (sender : Contact) (length_divisor : Int) :
    List (List Char) → Nat → Nat → SignatureMeta
  | [], _, _ => ⟨false, none, none, false⟩
  | line :: rest, i, j =>
    if (j : Int) * length_divisor = (reply.length : Int) then
      ⟨false, none, none, false⟩
    else
      match sig_check titles reply sender line i with
      | some r => r
      | none => sig_loop titles reply sender length_divisor rest (i - 1) (j + 1)

/-- `get_signature` (source lines 190-249).  A zero `length_divisor`
raises `ZeroDivisionError` at `max_length = len(reply_reversed)/length_divisor`;
any other divisor reaches the loop, started at `i = len(reply)` and
`j = 0` over the reversed lines. -/
def get_signature (titles : List (List Char)) (reply : List (List Char))
    (sender : Contact) (length_divisor : Int := 2) :
    Except PyError SignatureMeta :=
  if length_divisor = 0 then Except.error PyError.zeroDivisionError
  else Except.ok (sig_loop titles reply sender length_divisor
    reply.reverse reply.length 0)

/-- The same search loop with the `j == max_length` break removed; the
behaviour of the source loop whenever the break can never fire. -/
def sig_loop_noLimit (titles : List (List Char)) (reply : List (List Char))
    (sender : Contact) : List (List Char) → Nat → SignatureMeta
  | [], _ => ⟨false, none, none, false⟩
  | line :: rest, i =>
    match sig_check titles reply sender line i with
    | some r => r
    | none => sig_loop_noLimit titles reply sender rest (i - 1)

/-! ### Lemmas about `pySplit` and `sanitize_name` -/

theorem pySplitAux_tokens : ∀ (cs acc : List Char),
    (∀ c ∈ acc, pyWS c = false) →
    ∀ t ∈ pySplitAux cs acc, t ≠ [] ∧ ∀ c ∈ t, pyWS c = false := by
  intro cs
  induction cs with
  | nil =>
    intro acc hacc t ht
    by_cases h : acc = []
    · simp [pySplitAux, h] at ht
    · simp [pySplitAux, h] at ht
      subst ht
      refine ⟨by simpa using h, ?_⟩
      intro c hc
      exact hacc c (by simpa using hc)
  | cons c rest ih =>
    intro acc hacc t ht
    by_cases hw : pyWS c
    · by_cases h : acc = []
      · simp [pySplitAux, hw, h] at ht
        exact ih [] (by simp) t ht
      · simp [pySplitAux, hw, h] at ht
        rcases ht with ht | ht
        · subst ht
          refine ⟨by simpa using h, ?_⟩
          intro d hd
          exact hacc d (by simpa using hd)
        · exact ih [] (by simp) t ht
    · simp [pySplitAux, hw] at ht
      refine ih (c :: acc) ?_ t ht
      intro d hd
      rcases List.mem_cons.mp hd with rfl | hd
      · simpa using hw
      · exact hacc d hd

theorem pySplit_tokens (cs : List Char) :
    ∀ t ∈ pySplit cs, t ≠ [] ∧ ∀ c ∈ t, pyWS c = false :=
  pySplitAux_tokens cs [] (by simp)

theorem pySplitAux_append (t : List Char) (h : ∀ c ∈ t, pyWS c = false) :
    ∀ (rest acc : List Char),
      pySplitAux (t ++ rest) acc = pySplitAux rest (t.reverse ++ acc) := by
  induction t with
  | nil => intro rest acc; simp
  | cons c t' ih =>
    intro rest acc
    have hc : pyWS c = false := h c (by simp)
    have h' : ∀ d ∈ t', pyWS d = false := fun d hd => h d (by simp [hd])
    simp only [List.cons_append, pySplitAux, hc, Bool.false_eq_true, if_false,
      List.append_eq]
    rw [ih h' rest (c :: acc)]
    simp [List.reverse_cons, List.append_assoc]

theorem joinSP_cons_cons (a b : List Char) (l : List (List Char)) :
    joinSP (a :: b :: l) = a ++ ' ' :: joinSP (b :: l) := by
  simp [joinSP, List.intercalate, List.intersperse_cons_cons]

theorem pySplit_joinSP : ∀ (ts : List (List Char)),
    (∀ t ∈ ts, t ≠ [] ∧ ∀ c ∈ t, pyWS c = false) →
    pySplit (joinSP ts) = ts := by
  intro ts
  induction ts with
  | nil => intro _; rfl
  | cons t rest ih =>
    intro h
    have ht : t ≠ [] := (h t (by simp)).1
    have htw : ∀ c ∈ t, pyWS c = false := (h t (by simp)).2
    have hrev : t.reverse ≠ [] := by simpa using ht
    cases rest with
    | nil =>
      show pySplitAux (joinSP [t]) [] = [t]
      have : joinSP [t] = t ++ [] := by simp [joinSP, List.intercalate]
      rw [this, pySplitAux_append t htw [] []]
      simp [pySplitAux, hrev]
    | cons b l =>
      rw [joinSP_cons_cons]
      show pySplitAux (t ++ ' ' :: joinSP (b :: l)) [] = t :: b :: l
      rw [pySplitAux_append t htw (' ' :: joinSP (b :: l)) []]
      have hsp : pyWS ' ' = true := by decide
      simp only [List.append_nil, pySplitAux, hsp, if_true, hrev, if_false,
        List.reverse_reverse]
      exact congrArg (t :: ·) (ih (fun u hu => h u (by simp [hu])))

theorem isAlpha_not_ws {c : Char} (h : c.isAlpha = true) : pyWS c = false := by
  by_contra hw
  have hw' : c.isWhitespace = true := by
    simpa [pyWS] using hw
  simp only [Char.isWhitespace, Bool.or_eq_true, decide_eq_true_eq] at hw'
  rcases hw' with ((h1 | h1) | h1) | h1 <;> subst h1 <;> revert h <;> decide

theorem sanitize_tokens_props (titles : List (List Char)) :
    ∀ (toks : List (List Char)) (t : List Char), t ∈ sanitize_tokens titles toks →
      t.filter Char.isAlpha = t ∧ pyUpper t ≠ t ∧ t ∉ titles := by
  intro toks
  induction toks with
  | nil => intro t ht; simp [sanitize_tokens] at ht
  | cons tok rest ih =>
    intro t ht
    by_cases h1 : pyUpper (tok.filter Char.isAlpha) = tok.filter Char.isAlpha
    · simp only [sanitize_tokens, h1, if_true] at ht
      exact ih t ht
    · by_cases h2 : tok.filter Char.isAlpha ∈ titles
      · simp only [sanitize_tokens, h1, if_false, h2, if_true] at ht
        exact ih t ht
      · simp only [sanitize_tokens, h1, if_false, h2] at ht
        rcases List.mem_cons.mp ht with rfl | ht
        · refine ⟨?_, h1, h2⟩
          exact List.filter_eq_self.mpr fun a ha => List.of_mem_filter ha
        · exact ih t ht

theorem sanitize_tokens_good (titles : List (List Char)) (toks : List (List Char)) :
    ∀ t ∈ sanitize_tokens titles toks, t ≠ [] ∧ ∀ c ∈ t, pyWS c = false := by
  intro t ht
  obtain ⟨hfil, hup, -⟩ := sanitize_tokens_props titles toks t ht
  constructor
  · rintro rfl
    exact hup rfl
  · intro c hc
    rw [← hfil] at hc
    exact isAlpha_not_ws (List.of_mem_filter hc)

theorem sanitize_tokens_id (titles : List (List Char)) :
    ∀ (toks : List (List Char)),
      (∀ t ∈ toks, t.filter Char.isAlpha = t ∧ pyUpper t ≠ t ∧ t ∉ titles) →
      sanitize_tokens titles toks = toks := by
  intro toks
  induction toks with
  | nil => intro _; rfl
  | cons t rest ih =>
    intro h
    obtain ⟨hfil, hup, hti⟩ := h t (by simp)
    simp only [sanitize_tokens, hfil, hup, if_false, hti]
    rw [ih (fun u hu => h u (by simp [hu]))]

/-- C9: the name sanitizer is idempotent: sanitizing an already
sanitized name returns it unchanged, for every title set and every
input string. -/
theorem C9_sanitize_name_idempotent (titles : List (List Char)) (name : List Char) :
    sanitize_name titles (sanitize_name titles name) = sanitize_name titles name := by
  unfold sanitize_name
  rw [pySplit_joinSP _ (sanitize_tokens_good titles (pySplit name)),
    sanitize_tokens_id titles _ (sanitize_tokens_props titles (pySplit name))]

/-! ### Lemmas about `get_replies` -/

theorem pySlice_append (xs : List α) {a b c : Nat} (hab : a ≤ b) (hbc : b ≤ c) :
    pySlice xs a b ++ pySlice xs b c = pySlice xs a c := by
  unfold pySlice
  have h1 : xs.drop b = (xs.drop a).drop (b - a) := by
    rw [List.drop_drop]
    congr 1
    omega
  have h2 : c - a = (b - a) + (c - b) := by omega
  rw [h1, h2, List.take_add]

theorem chain_le_getLastD : ∀ (cs : List Nat) (b : Nat),
    List.Chain (· ≤ ·) b cs → b ≤ cs.getLastD b := by
  intro cs
  induction cs with
  | nil => intro b _; simp [List.getLastD]
  | cons c cs ih =>
    intro b hb
    rw [List.chain_cons] at hb
    rw [List.getLastD_cons]
    exact le_trans hb.1 (ih c hb.2)

theorem join_slices (xs : List α) : ∀ (cs : List Nat) (a : Nat),
    List.Chain (· ≤ ·) a cs →
    ((((a :: cs).zip cs).map (fun p => pySlice xs p.1 p.2)).flatten =
      pySlice xs a (cs.getLastD a)) := by
  intro cs
  induction cs with
  | nil => intro a _; simp [pySlice]
  | cons b cs ih =>
    intro a ha
    rw [List.chain_cons] at ha
    rw [List.zip_cons_cons, List.map_cons, List.flatten_cons, ih b ha.2,
      List.getLastD_cons]
    exact pySlice_append xs ha.1 (chain_le_getLastD cs b ha.2)

theorem breakpoints_chain (lines : List (List Char)) :
    List.Chain (· ≤ ·)
      0 ((List.range lines.length).filter (fun i => isFromLine (lines.getD i []))
        ++ [lines.length]) := by
  set idxs := (List.range lines.length).filter (fun i => isFromLine (lines.getD i []))
    with hidxs
  have hmem : ∀ x ∈ idxs, x < lines.length := by
    intro x hx
    exact List.mem_range.mp (List.mem_filter.mp hx).1
  have hp : List.Pairwise (· ≤ ·) (0 :: (idxs ++ [lines.length])) := by
    refine List.pairwise_cons.mpr ⟨fun x _ => Nat.zero_le x, ?_⟩
    refine List.pairwise_append.mpr ⟨?_, by simp, ?_⟩
    · exact ((List.pairwise_lt_range lines.length).sublist
        (List.filter_sublist _)).imp Nat.le_of_lt
    · intro x hx y hy
      have h1 := hmem x hx
      have h2 : y = lines.length := by simpa using hy
      omega
  exact hp.chain'

theorem get_replies_join (lines : List (List Char)) :
    (get_replies lines).flatten = lines := by
  unfold get_replies breakpoints
  rw [List.tail_cons,
    join_slices lines _ 0 (breakpoints_chain lines),
    List.getLastD_concat]
  simp [pySlice]

/-- C1: for every normalized message (its list of lines after the
`Original Message` separator-removal pass), concatenating in order the
line ranges returned by the reply splitter reconstructs exactly those
lines: nothing is dropped, duplicated, or otherwise removed. -/
theorem C1_get_replies_reconstructs (lines : List (List Char)) :
    (get_replies lines).flatten = lines :=
  get_replies_join lines

/-- C10: when the first normalized line starts with `From: `, the reply
splitter returns an empty first reply (the implicit boundary at 0 and
the recorded boundary at 0 form a zero-length range), and the remaining
replies carry all of the lines. -/
theorem C10_get_replies_leading_empty (l : List Char) (rest : List (List Char))
    (h : isFromLine l = true) :
    (get_replies (l :: rest)).head? = some [] ∧
    ((get_replies (l :: rest)).tail).flatten = l :: rest := by
  have hjoin := get_replies_join (l :: rest)
  have hhead : (get_replies (l :: rest)).head? = some [] := by
    unfold get_replies breakpoints
    rw [List.length_cons, List.range_succ_eq_map, List.filter_cons]
    simp only [List.getD_cons_zero, h, if_true, List.cons_append,
      List.tail_cons, List.zip_cons_cons, List.map_cons, List.head?_cons]
    simp [pySlice]
  refine ⟨hhead, ?_⟩
  rcases hk : get_replies (l :: rest) with _ | ⟨r0, t⟩
  · rw [hk] at hhead
    simp at hhead
  · rw [hk] at hhead hjoin
    simp only [List.head?_cons, Option.some.injEq] at hhead
    subst hhead
    simpa using hjoin

/-- Closed instance of `C10_get_replies_leading_empty` at a concrete
message. -/
theorem C10_get_replies_leading_empty_witness :
    (get_replies ["From: A".toList, "body x".toList]).head? = some [] ∧
    ((get_replies ["From: A".toList, "body x".toList]).tail).flatten =
      ["From: A".toList, "body x".toList] :=
  C10_get_replies_leading_empty "From: A".toList ["body x".toList] (by decide)

/-! ### Lemmas about `get_metadata` -/

theorem meta_process_set_lines (titles : List (List Char)) (line : List Char)
    (st : Metadata) (k : Nat) :
    meta_process titles line { st with lines := k } =
      { meta_process titles line st with lines := k } := by
  unfold meta_process
  split_ifs <;> rfl

theorem meta_loop_set_lines (titles : List (List Char)) :
    ∀ (lines : List (List Char)) (i : Nat) (st : Metadata) (k : Nat),
      meta_loop titles lines i { st with lines := k } =
        { meta_loop titles lines i st with lines := k } := by
  intro lines
  induction lines with
  | nil => intro i st k; rfl
  | cons line rest ih =>
    intro i st k
    simp only [meta_loop]
    rw [meta_process_set_lines]
    by_cases hi : i > 9
    · simp [hi]
    · simp only [hi, if_false]
      exact ih (i + 1) (meta_process titles line st) k

theorem meta_loop_take (titles : List (List Char)) :
    ∀ (lines : List (List Char)) (i : Nat) (st : Metadata), i ≤ 10 →
      meta_loop titles lines i st = meta_loop titles (lines.take (11 - i)) i st := by
  intro lines
  induction lines with
  | nil => intro i st _; simp
  | cons line rest ih =>
    intro i st hle
    have h11 : 11 - i = (10 - i) + 1 := by omega
    rw [h11, List.take_succ_cons]
    show (if i > 9 then meta_process titles line st
          else meta_loop titles rest (i + 1) (meta_process titles line st)) = _
    by_cases hi : i > 9
    · simp only [meta_loop, hi, if_true]
    · simp only [meta_loop, hi, if_false]
      have h10 : 10 - i = 11 - (i + 1) := by omega
      rw [h10, ih (i + 1) (meta_process titles line st) (by omega)]

/-- C5: the metadata extractor only looks at line indices 0 through 10:
its sender, recipients, timestamp and subject are fully determined by
the first eleven lines of the reply, so a header-shaped line at index
11 or later never affects them; and a matching line at index 10 (the
last scanned index) is still recognized. -/
theorem C5_get_metadata_scan_cutoff (titles : List (List Char)) (reply : List (List Char)) :
    ((get_metadata titles reply).sender = (get_metadata titles (reply.take 11)).sender ∧
     (get_metadata titles reply).recipients = (get_metadata titles (reply.take 11)).recipients ∧
     (get_metadata titles reply).timestamp = (get_metadata titles (reply.take 11)).timestamp ∧
     (get_metadata titles reply).subject = (get_metadata titles (reply.take 11)).subject) ∧
    (get_metadata titles
      (List.replicate 10 ([] : List Char) ++ ["Subject: hi".toList])).subject =
      some ("hi".toList) := by
  constructor
  · unfold get_metadata
    rw [meta_loop_take titles reply 0 _ (by omega)]
    simp only [Nat.sub_zero]
    have h1 := meta_loop_set_lines titles (reply.take 11) 0
      ⟨none, none, none, none, 0⟩ reply.length
    have h2 := meta_loop_set_lines titles (reply.take 11) 0
      ⟨none, none, none, none, 0⟩ (reply.take 11).length
    refine ⟨?_, ?_, ?_, ?_⟩ <;> rw [show (⟨none, none, none, none, reply.length⟩ : Metadata) =
        { (⟨none, none, none, none, 0⟩ : Metadata) with lines := reply.length } from rfl,
      show (⟨none, none, none, none, (reply.take 11).length⟩ : Metadata) =
        { (⟨none, none, none, none, 0⟩ : Metadata) with lines := (reply.take 11).length } from rfl,
      h1, h2]
  · rfl

theorem opt_getLast?_cons (a : α) (l : List α) :
    (a :: l).getLast? = some (l.getLast?.getD a) := by
  induction l generalizing a with
  | nil => rfl
  | cons b l ih =>
    rw [List.getLast?_cons_cons, ih b]
    simp

theorem meta_process_sender_of_not_from (titles : List (List Char)) (line : List Char)
    (st : Metadata) (h : ¬ isFromLine line = true) :
    (meta_process titles line st).sender = st.sender := by
  unfold meta_process
  split_ifs with h1 <;> first | exact absurd h1 h | rfl

theorem meta_loop_sender (titles : List (List Char)) :
    ∀ (lines : List (List Char)) (i : Nat) (st : Metadata), i ≤ 10 →
      (meta_loop titles lines i st).sender =
        (((lines.take (11 - i)).filter isFromLine).getLast?.map
          (fun l => some (get_contact titles (l.drop 6)))).getD st.sender := by
  intro lines
  induction lines with
  | nil => intro i st _; simp [meta_loop]
  | cons line rest ih =>
    intro i st hle
    have h11 : 11 - i = (10 - i) + 1 := by omega
    rw [h11, List.take_succ_cons, List.filter_cons]
    show (if i > 9 then meta_process titles line st
          else meta_loop titles rest (i + 1) (meta_process titles line st)).sender = _
    by_cases hi : i > 9
    · have h0 : 10 - i = 0 := by omega
      simp only [hi, if_true, h0, List.take_zero, List.filter_nil]
      by_cases hf : isFromLine line
      · simp only [hf, if_true]
        show (meta_process titles line st).sender = _
        unfold meta_process
        rw [if_pos hf]
        rfl
      · simp only [hf, Bool.false_eq_true, if_false, List.getLast?_nil,
          Option.map_none', Option.getD_none]
        exact meta_process_sender_of_not_from titles line st hf
    · simp only [hi, if_false]
      have h10 : 10 - i = 11 - (i + 1) := by omega
      rw [ih (i + 1) (meta_process titles line st) (by omega), ← h10]
      by_cases hf : isFromLine line
      · simp only [hf, if_true]
        rw [opt_getLast?_cons]
        have hs : (meta_process titles line st).sender =
            some (get_contact titles (line.drop 6)) := by
          unfold meta_process
          rw [if_pos hf]
        cases hlast : ((rest.take (10 - i)).filter isFromLine).getLast? <;>
          simp [hlast, hs]
      · simp only [hf, Bool.false_eq_true, if_false,
          meta_process_sender_of_not_from titles line st hf]

/-- C6 amended: within one reply the metadata extractor returns as
sender the contact parsed from the LAST `From: ` line among the scanned
indices 0 through 10; earlier `From: ` lines are overwritten, so last
occurrence wins for the sender (the claim's first-occurrence rule fails). -/
theorem C6_get_metadata_last_from_wins (titles : List (List Char))
    (reply : List (List Char)) :
    (get_metadata titles reply).sender =
      ((reply.take 11).filter isFromLine).getLast?.map
        (fun l => get_contact titles (l.drop 6)) := by
  unfold get_metadata
  rw [meta_loop_sender titles reply 0 _ (by omega)]
  simp only [Nat.sub_zero]
  cases h : ((reply.take 11).filter isFromLine).getLast? <;> simp [h]

/-- C6 counterexample: on a reply whose first two lines are
`From: Alice` and `From: Bob`, the extractor returns Bob's contact (the
second `From: ` line), not the contact parsed from the first such line
as the claim states. -/
theorem C6_counterexample :
    (get_metadata TITLES ["From: Alice".toList, "From: Bob".toList]).sender =
      some (get_contact TITLES ("Bob".toList)) ∧
    get_contact TITLES ("Bob".toList) ≠ get_contact TITLES ("Alice".toList) := by
  decide

/-! ### Lemmas about `get_signature` -/

theorem sig_loop_noLimit_eq (titles : List (List Char)) (reply : List (List Char))
    (sender : Contact) (d : Int) (hd : d < 0) (hne : reply ≠ []) :
    ∀ (lines : List (List Char)) (i j : Nat),
      sig_loop titles reply sender d lines i j =
        sig_loop_noLimit titles reply sender lines i := by
  intro lines
  induction lines with
  | nil => intro i j; rfl
  | cons line rest ih =>
    intro i j
    have hlen : 0 < reply.length := List.length_pos.mpr hne
    have hguard : ¬ ((j : Int) * d = (reply.length : Int)) := by
      have hj : (0 : Int) ≤ (j : Int) := Int.ofNat_nonneg j
      have h1 : (j : Int) * d ≤ 0 := by nlinarith
      intro h
      rw [h] at h1
      omega
    simp only [sig_loop, sig_loop_noLimit]
    rw [if_neg hguard]
    cases hc : sig_check titles reply sender line i with
    | some r => simp only [hc]
    | none => simp only [hc]; exact ih (i - 1) (j + 1)

/-- C3 amended: calling the signature detector with `length_divisor = 0`
raises CPython's `ZeroDivisionError` (the error the spec's
`ConfigurationError` stands for), but a NEGATIVE divisor raises
nothing: the search-limit guard can never fire, so the call silently
returns the result of searching the whole reply. -/
theorem C3_nonpositive_divisor (titles : List (List Char)) (reply : List (List Char))
    (sender : Contact) (d : Int) (hd : d ≤ 0) :
    (d = 0 → get_signature titles reply sender d =
      Except.error PyError.zeroDivisionError) ∧
    (d < 0 → get_signature titles reply sender d =
      Except.ok (sig_loop_noLimit titles reply sender reply.reverse reply.length)) := by
  constructor
  · intro h0
    subst h0
    rfl
  · intro hneg
    have hdne : d ≠ 0 := by omega
    unfold get_signature
    rw [if_neg hdne]
    rcases hre : reply with _ | ⟨l, r⟩
    · rfl
    · rw [← hre]
      rw [sig_loop_noLimit_eq titles reply sender d hneg (by rw [hre]; simp)]

/-- Closed instance of `C3_nonpositive_divisor` at concrete inputs:
divisor 0 errors, divisor -2 returns a value. -/
theorem C3_nonpositive_divisor_witness :
    get_signature TITLES ["Hey all".toList] ⟨"A".toList, [], none⟩ 0 =
      Except.error PyError.zeroDivisionError ∧
    get_signature TITLES ["Hey all".toList] ⟨"A".toList, [], none⟩ (-2) =
      Except.ok (sig_loop_noLimit TITLES ["Hey all".toList] ⟨"A".toList, [], none⟩
        (["Hey all".toList]).reverse 1) := by
  constructor
  · exact (C3_nonpositive_divisor TITLES ["Hey all".toList] ⟨"A".toList, [], none⟩ 0
      (by omega)).1 rfl
  · exact (C3_nonpositive_divisor TITLES ["Hey all".toList] ⟨"A".toList, [], none⟩ (-2)
      (by omega)).2 (by omega)

/-- C3 counterexample: with `length_divisor = -1` (which is ≤ 0) the
detector raises no error at all — it returns a normal result — so the
claim that every non-positive divisor raises is false. -/
theorem C3_counterexample :
    get_signature TITLES ["Regards".toList, "Team".toList]
      ⟨"John Smith".toList, "John Smith".toList, none⟩ (-1) =
      Except.ok ⟨false, none, none, false⟩ := by
  decide

theorem sanitize_JohnSmith (titles : List (List Char))
    (hJ : "John".toList ∉ titles) (hS : "Smith".toList ∉ titles) :
    sanitize_name titles ("John Smith".toList) = "John Smith".toList := by
  unfold sanitize_name
  have hsplit : pySplit ("John Smith".toList) = ["John".toList, "Smith".toList] := by
    decide
  rw [hsplit]
  have hfJ : ("John".toList).filter Char.isAlpha = "John".toList := by decide
  have hfS : ("Smith".toList).filter Char.isAlpha = "Smith".toList := by decide
  have huJ : ¬ pyUpper ("John".toList) = "John".toList := by decide
  have huS : ¬ pyUpper ("Smith".toList) = "Smith".toList := by decide
  simp only [sanitize_tokens, hfJ, hfS, if_neg huJ, if_neg huS, if_neg hJ, if_neg hS]
  decide

theorem sig_check_JohnSmith (titles : List (List Char)) (reply : List (List Char))
    (sender : Contact) (hname : sender.name = "John Smith".toList)
    (haddr : sender.address = none)
    (hJ : "John".toList ∉ titles) (hS : "Smith".toList ∉ titles) (i : Nat) :
    sig_check titles reply sender ("John Smith".toList) i =
      some ⟨true, some (pyStrip (joinNL (reply.drop (i - 1)))),
            some (pyStrip (joinNL (reply.take (i - 1)))), false⟩ := by
  simp only [sig_check]
  rw [sanitize_JohnSmith titles hJ hS]
  have hsplit : pySplit ("John Smith".toList) = ["John".toList, "Smith".toList] := by
    decide
  rw [hsplit]
  have hfound : found_sender sender ["John".toList, "Smith".toList] =
      ["John".toList, "Smith".toList] := by
    unfold found_sender
    rw [hname]
    decide
  rw [if_pos ⟨by decide, hfound⟩, haddr]

/-- C4 amended: for a sender whose sanitized name is `John Smith` (with
no address) and any reply whose last two lines are `Thanks,` then
`John Smith`, the detector matches the LAST line immediately:
`has_signature` is true, but the signature is exactly the final
`John Smith` line alone, and `reply_text` is everything above it — the
`Thanks,` line stays in the reply text, not in the signature. -/
theorem C4_signature_is_last_line (titles : List (List Char)) (pre : List (List Char))
    (sender : Contact) (hname : sender.name = "John Smith".toList)
    (haddr : sender.address = none)
    (hJ : "John".toList ∉ titles) (hS : "Smith".toList ∉ titles) :
    get_signature titles (pre ++ ["Thanks,".toList, "John Smith".toList]) sender 2 =
      Except.ok ⟨true, some ("John Smith".toList),
        some (pyStrip (joinNL (pre ++ ["Thanks,".toList]))), false⟩ := by
  have hlen : (pre ++ ["Thanks,".toList, "John Smith".toList]).length = pre.length + 2 := by
    simp
  have hrev : (pre ++ ["Thanks,".toList, "John Smith".toList]).reverse =
      "John Smith".toList :: "Thanks,".toList :: pre.reverse := by simp
  unfold get_signature
  rw [if_neg (by norm_num : ¬(2 : Int) = 0), hrev]
  simp only [sig_loop]
  rw [if_neg (show ¬(((0 : Nat) : Int) * 2 =
      ((pre ++ ["Thanks,".toList, "John Smith".toList]).length : Int)) by
    rw [hlen]; push_cast; omega)]
  rw [sig_check_JohnSmith titles _ sender hname haddr hJ hS _]
  rw [hlen]
  have hdrop : (pre ++ ["Thanks,".toList, "John Smith".toList]).drop (pre.length + 2 - 1) =
      ["John Smith".toList] := by
    have : pre.length + 2 - 1 = pre.length + 1 := rfl
    rw [this, List.drop_append 1]
    rfl
  have htake : (pre ++ ["Thanks,".toList, "John Smith".toList]).take (pre.length + 2 - 1) =
      pre ++ ["Thanks,".toList] := by
    have : pre.length + 2 - 1 = pre.length + 1 := rfl
    rw [this, List.take_append 1]
    rfl
  rw [hdrop, htake]
  have hsig : pyStrip (joinNL (["John Smith".toList])) = "John Smith".toList := by decide
  rw [hsig]

/-- Closed instance of `C4_signature_is_last_line` at a concrete
reply. -/
theorem C4_signature_is_last_line_witness :
    get_signature TITLES (["Hi".toList] ++ ["Thanks,".toList, "John Smith".toList])
      ⟨"John Smith".toList, "John Smith".toList, none⟩ 2 =
      Except.ok ⟨true, some ("John Smith".toList),
        some (pyStrip (joinNL (["Hi".toList] ++ ["Thanks,".toList]))), false⟩ :=
  C4_signature_is_last_line TITLES ["Hi".toList]
    ⟨"John Smith".toList, "John Smith".toList, none⟩ rfl rfl (by decide) (by decide)

/-- C4 counterexample: on the reply `Hello` / `Thanks,` / `John Smith`
with sender name `John Smith`, the detector returns the signature
`John Smith` alone and reply text `Hello\nThanks,` — not the claimed
two-line signature `Thanks,\nJohn Smith`. -/
theorem C4_counterexample :
    get_signature TITLES ["Hello".toList, "Thanks,".toList, "John Smith".toList]
      ⟨"John Smith".toList, "John Smith".toList, none⟩ 2 =
      Except.ok ⟨true, some ("John Smith".toList), some ("Hello\nThanks,".toList), false⟩ ∧
    some ("John Smith".toList) ≠ some ("Thanks,\nJohn Smith".toList) := by
  decide

/-- C2: evaluation of the code at the failing input.  On a 3-line reply
with the default divisor 2 the claimed limit floor(3/2) = 1 is never
enforced: the float guard `j == 1.5` cannot fire, every line is
examined, and line index 0 — far before the claimed limit — is chosen
as the signature start, making the whole reply the signature. -/
theorem C2_search_limit_not_enforced :
    get_signature TITLES
      ["John Smith".toList, "Hello there".toList, "Thanks".toList]
      ⟨"John Smith".toList, "John Smith".toList, none⟩ 2 =
      Except.ok ⟨true, some ("John Smith\nHello there\nThanks".toList),
        some [], false⟩ := by
  decide

/-- C7: evaluation of the code at the failing input.  On a 1-line reply
with the default divisor 2 the guard `j == 0.5` never fires, so the
single line IS examined and matches the sender's name: the detector
returns a signature instead of the claimed `has_signature = false`. -/
theorem C7_one_line_reply_matches :
    get_signature TITLES ["John Smith".toList]
      ⟨"John Smith".toList, "John Smith".toList, none⟩ 2 =
      Except.ok ⟨true, some ("John Smith".toList), some [], false⟩ := by
  decide

/-! ### Lemmas about `load_titles` -/

theorem pyLines_ne_nil : ∀ (text : List Char), pyLines text ≠ [] := by
  intro text
  cases text with
  | nil => simp [pyLines]
  | cons c rest =>
    by_cases h : c = '\n'
    · simp [pyLines, h]
    · simp only [pyLines, h, if_false]
      cases hr : pyLines rest <;> simp

theorem pyLines_nl (rest : List Char) : pyLines ('\n' :: rest) = [] :: pyLines rest := by
  simp [pyLines]

theorem pyLines_cons_of_ne (c : Char) (rest : List Char) (hc : c ≠ '\n')
    (l : List Char) (ls : List (List Char)) (hr : pyLines rest = l :: ls) :
    pyLines (c :: rest) = (c :: l) :: ls := by
  simp [pyLines, hc, hr]

theorem pySplitAux_lines : ∀ (text acc : List Char) (l : List Char)
    (ls : List (List Char)), pyLines text = l :: ls →
    pySplitAux text acc = pySplitAux l acc ++ (ls.map pySplit).flatten := by
  intro text
  induction text with
  | nil =>
    intro acc l ls h
    rw [show pyLines [] = [[]] from rfl] at h
    injection h with h1 h2
    subst h1
    subst h2
    simp
  | cons c rest ih =>
    intro acc l ls h
    by_cases hc : c = '\n'
    · subst hc
      rw [pyLines_nl rest] at h
      injection h with h1 h2
      subst h1
      subst h2
      have hmain : pySplitAux rest [] = ((pyLines rest).map pySplit).flatten := by
        rcases hr : pyLines rest with _ | ⟨u, us⟩
        · exact absurd hr (pyLines_ne_nil rest)
        · rw [ih [] u us hr]
          simp [pySplit]
      have hwnl : pyWS '\n' = true := by decide
      by_cases ha : acc = []
      · simp [pySplitAux, ha, hwnl, hmain]
      · simp [pySplitAux, ha, hwnl, hmain]
    · rcases hr : pyLines rest with _ | ⟨u, us⟩
      · exact absurd hr (pyLines_ne_nil rest)
      · rw [pyLines_cons_of_ne c rest hc u us hr] at h
        injection h with h1 h2
        subst h2
        subst h1
        by_cases hw : pyWS c
        · by_cases ha : acc = []
          · simp only [pySplitAux, hw, if_true, ha, if_pos rfl]
            exact ih [] u us hr
          · simp only [pySplitAux, hw, if_true, ha, if_false, List.cons_append]
            rw [ih [] u us hr]
        · simp only [pySplitAux, hw, Bool.false_eq_true, if_false]
          exact ih (c :: acc) u us hr

theorem pySplit_lines (text : List Char) :
    pySplit text = ((pyLines text).map pySplit).flatten := by
  rcases hr : pyLines text with _ | ⟨l, ls⟩
  · exact absurd hr (pyLines_ne_nil text)
  · rw [pySplit, pySplitAux_lines text [] l ls hr]
    simp [pySplit]

/-- C8 amended: the Title Set loader filters TOKENS, not lines: a token
is a member iff it is a whitespace-separated token of the resource text
whose own first character is not `#`.  In particular a token sitting on
a `#`-prefixed comment line still becomes a member as long as the token
itself does not start with `#` — only the `#...` token is dropped. -/
theorem C8_load_titles_token_filter (text : List Char) (tok : List Char) :
    (tok ∈ load_titles text ↔ tok ∈ pySplit text ∧ tok.headD ' ' ≠ '#') ∧
    (∀ line ∈ pyLines text, tok ∈ pySplit line → tok.headD ' ' ≠ '#' →
      tok ∈ load_titles text) := by
  constructor
  · simp [load_titles, List.mem_filter]
  · intro line hline htok hhead
    have hmem : tok ∈ pySplit text := by
      rw [pySplit_lines text]
      exact List.mem_flatten.mpr ⟨pySplit line, List.mem_map_of_mem pySplit hline, htok⟩
    simp only [load_titles, List.mem_filter, hmem, true_and, decide_eq_true_eq]
    exact hhead

/-- Closed instance of `C8_load_titles_token_filter`: the token `Rank`
of the comment line `# Rank` is a Title Set member. -/
theorem C8_load_titles_token_filter_witness :
    "Rank".toList ∈ load_titles ("# Rank\nDr".toList) :=
  (C8_load_titles_token_filter ("# Rank\nDr".toList) ("Rank".toList)).2
    ("# Rank".toList) (by decide) (by decide) (by decide)

/-- C8 counterexample: with resource text `# Rank` / `Dr`, the line
`# Rank` is a comment line (first character `#`) carrying the token
`Rank`, and yet `Rank` is a member of the loaded Title Set — comment
lines do contribute tokens, contrary to the claim. -/
theorem C8_counterexample :
    ("# Rank".toList ∈ pyLines ("# Rank\nDr".toList) ∧
     ("# Rank".toList).headD ' ' = '#' ∧
     "Rank".toList ∈ pySplit ("# Rank".toList)) ∧
    "Rank".toList ∈ load_titles ("# Rank\nDr".toList) := by
  decide
